import Mathlib

/-!
Shallow embedding of the psutils page-imposition core (psutils/__init__.py,
psutils/pstops.py, psutils/psnup.py) and proofs about the frozen claims.

Conventions of the embedding:
* Python `int` is `Int` (or `Nat` for byte offsets and counts);
* Python `float` is `ℚ` (the arithmetic in the source is exact on the
  inputs the claims concern; IEEE rounding is not modelled);
* fallible code (`die`, uncaught exceptions) returns `Except`;
* byte strings are `String` restricted to ASCII, so `len` is `String.length`.
-/

/-! ## PageSpec (psutils/__init__.py, class PageSpec) -/

structure PageSpec where
  reversed : Bool := false
  pageno : Int := 0
  rotate : Int := 0
  hflip : Bool := false
  vflip : Bool := false
  scale : ℚ := 1
  xoff : ℚ := 0
  yoff : ℚ := 0
deriving Repr, DecidableEq, Inhabited

def PageSpec.has_transform (ps : PageSpec) : Bool :=
  ps.rotate != 0 || ps.hflip || ps.vflip || ps.scale != 1 || ps.xoff != 0 || ps.yoff != 0

/-- `page_index_to_page_number` (psutils/__init__.py):
`(maxpage - pagebase - modulo if ps.reversed else pagebase) + ps.pageno`. -/
def page_index_to_page_number (ps : PageSpec) (maxpage modulo pagebase : Int) : Int :=
  (if ps.reversed then maxpage - pagebase - modulo else pagebase) + ps.pageno

/-! ## Range and PageList (psutils/__init__.py) -/

/-- `class Range`: `start`/`end` 1-based endpoints (0,0 is the blank sentinel),
plus the original literal text.  The source field `end` is a Lean keyword,
hence `end_`. -/
structure Range where
  start : Int
  end_ : Int
  text : String
deriving Repr, DecidableEq

/-- The odd/even filter condition of `PageList.__init__`:
`not(odd and (not even) and currentpg % 2 == 0) and
 not(even and not odd and currentpg % 2 == 1)`. -/
def keepPage (odd even : Bool) (currentpg : Int) : Bool :=
  !(odd && !even && currentpg % 2 == 0) && !(even && !odd && currentpg % 2 == 1)

/-- The `while r.end - currentpg != -inc` loop body of `PageList.__init__`,
with fuel (the loop runs exactly `|end - start| + 1` iterations, stepping
`currentpg` by `inc` toward `rend`; the fuel-0 fallback is never reached
with the fuel supplied by `mkPages`). -/
def rangeStepLoop (total_pages rend inc : Int) (odd even : Bool) (text : String) :
    Nat → Int → List Int → Except String (List Int)
  | 0, _, acc => .ok acc
  | fuel+1, currentpg, acc =>
    if rend - currentpg = -inc then .ok acc
    else if currentpg > total_pages then
      .error ("page range " ++ text ++ " is invalid")
    else
      rangeStepLoop total_pages rend inc odd even text fuel (currentpg + inc)
        (if keepPage odd even currentpg then acc ++ [currentpg - 1] else acc)

/-- The range-processing loop of `PageList.__init__` (before the final
`reverse`): each range appends its selected 0-based pages to the list. -/
def mkPages (total_pages : Int) (odd even : Bool) (pagerange : List Range) :
    Except String (List Int) :=
  pagerange.foldlM
    (fun acc r =>
      let inc : Int := if r.end_ < r.start then -1 else 1
      rangeStepLoop total_pages r.end_ inc odd even r.text
        ((r.end_ - r.start).natAbs + 1) r.start acc)
    []

/-- `PageList.__init__`: build the page list, then reverse the entire list
if `reverse` is set. -/
def mkPageList (total_pages : Int) (pagerange : List Range) (reverse odd even : Bool) :
    Except String (List Int) :=
  (mkPages total_pages odd even pagerange).map
    (fun ps => if reverse then ps.reverse else ps)

/-- `PageList.real_page`: `self.pages[p]` with Python indexing semantics
(negative indices address from the end), returning `0` when the subscript
raises `IndexError`. -/
def real_page (pages : List Int) (p : Int) : Int :=
  if 0 ≤ p ∧ p < (pages.length : Int) then pages.getD p.toNat 0
  else if -(pages.length : Int) ≤ p ∧ p < 0 then pages.getD (pages.length - (-p).toNat) 0
  else 0

/-- `PageList.num_pages`. -/
def num_pages (pages : List Int) : Nat := pages.length

/-- The page-label entry built in `pstops.transform_pages`:
`str(n + 1) if n >= 0 else "*"`. -/
def page_label_entry (n : Int) : String :=
  if n ≥ 0 then toString (n + 1) else "*"

/-! ## Python number parsing (strtod, int(), float() — psutils/__init__.py) -/

/-- Python byte/str whitespace (`\s` for the inputs concerned). -/
def pyIsSpace (c : Char) : Bool :=
  c = ' ' || c = '\t' || c = '\n' || c = '\r' || c = '\x0b' || c = '\x0c'

def pyStrip (s : String) : String :=
  ⟨((s.data.dropWhile pyIsSpace).reverse.dropWhile pyIsSpace).reverse⟩

/-- Structural prefix test (Python `startswith`), kernel-reducible. -/
def listHasPrefix : List Char → List Char → Bool
  | [], _ => true
  | _ :: _, [] => false
  | p :: ps, c :: cs => p = c && listHasPrefix ps cs

def strHasPrefix (s pre : String) : Bool := listHasPrefix pre.data s.data

/-- Python `str.split(sep)` for a one-character separator. -/
def splitOnCharAux (sep : Char) : List Char → List Char → List String
  | [], cur => [⟨cur.reverse⟩]
  | c :: rest, cur =>
    if c = sep then ⟨cur.reverse⟩ :: splitOnCharAux sep rest []
    else splitOnCharAux sep rest (c :: cur)

def splitOnChar (sep : Char) (s : String) : List String := splitOnCharAux sep s.data []

def digitsToNat (l : List Char) : Nat :=
  l.foldl (fun n c => 10 * n + (c.toNat - Char.toNat '0')) 0

/-- Optional sign: returns (isNegative, rest). -/
def parseSign : List Char → Bool × List Char
  | '-' :: r => (true, r)
  | '+' :: r => (false, r)
  | l => (false, l)

/-- Optional exponent part `(E[-+]?\d+)?` (case-insensitive): the group
matches entirely or not at all. -/
def parseExp : List Char → Option (Int × List Char)
  | c :: rest =>
    if c = 'e' || c = 'E' then
      let (neg, r1) := parseSign rest
      let ds := r1.takeWhile Char.isDigit
      if ds = [] then none
      else some ((if neg then -(digitsToNat ds : Int) else (digitsToNat ds : Int)),
        r1.dropWhile Char.isDigit)
    else none
  | [] => none

/-- Exact value of the decimal `[-]IP.FP e EX`. -/
def decValue (neg : Bool) (ip fp : List Char) (ex : Int) : ℚ :=
  let m : ℚ := ((digitsToNat ip * 10 ^ fp.length + digitsToNat fp : ℕ) : ℚ) / (10 : ℚ) ^ fp.length
  let v := m * (10 : ℚ) ^ ex
  if neg then -v else v

/-- The `strtod` matcher `[-+]?(?=\d|\.\d)\d*(\.\d*)?(E[-+]?\d+)?`
(IGNORECASE): returns the exact value of the matched prefix and the
unmatched rest, or `none` when the match fails (Python raises ValueError). -/
def strtodCore (l : List Char) : Option (ℚ × List Char) :=
  let (neg, l1) := parseSign l
  let lookDigit : Bool := match l1 with
    | c :: _ => c.isDigit
    | [] => false
  let lookDotDigit : Bool := match l1 with
    | c :: d :: _ => c = '.' && d.isDigit
    | _ => false
  if !(lookDigit || lookDotDigit) then none
  else
    let ip := l1.takeWhile Char.isDigit
    let l2 := l1.dropWhile Char.isDigit
    let (fp, l3) : List Char × List Char :=
      match l2 with
      | '.' :: r => (r.takeWhile Char.isDigit, r.dropWhile Char.isDigit)
      | _ => ([], l2)
    match parseExp l3 with
    | some (ex, l4) => some (decValue neg ip fp ex, l4)
    | none => some (decValue neg ip fp 0, l3)

def strtod (s : String) : Option (ℚ × String) :=
  match strtodCore s.data with
  | none => none
  | some (q, rest) => some (q, ⟨rest⟩)

/-- Python `float(str)` on the texts the spec grammar admits (no `inf`/`nan`
and no underscore separators, which the claims never exercise). -/
def pyFloat (s : String) : Option ℚ :=
  match strtodCore (pyStrip s).data with
  | some (q, []) => some q
  | _ => none

/-- Python `int(str)` (again without underscore separators). -/
def pyInt (s : String) : Option Int :=
  match (pyStrip s).data with
  | '-' :: ds =>
    if ds ≠ [] ∧ ds.all Char.isDigit then some (-(digitsToNat ds : Int)) else none
  | '+' :: ds =>
    if ds ≠ [] ∧ ds.all Char.isDigit then some ((digitsToNat ds : Int)) else none
  | ds =>
    if ds ≠ [] ∧ ds.all Char.isDigit then some ((digitsToNat ds : Int)) else none

/-- Sequential map that stops at the first error — the behaviour of the
source loops that `die`/raise on the first bad element. -/
def mapE {ε α β : Type} (f : α → Except ε β) : List α → Except ε (List β)
  | [] => .ok []
  | x :: xs =>
    match f x with
    | .error e => .error e
    | .ok y =>
      match mapE f xs with
      | .error e => .error e
      | .ok ys => .ok (y :: ys)

/-! ## Errors of the spec/range parsers -/

/-- How a call into the parsing layer can fail:
`grammar` is `specerror()` (the fixed usage message, `die` → exit 1);
`dieMsg` is any other `die(...)` (exit 1); `valueError` is an uncaught
Python exception (a crash). -/
inductive SpecErr where
  | grammar
  | dieMsg (msg : String)
  | valueError
deriving Repr, DecidableEq

/-- `singledimen` (psutils/__init__.py): parse a number via `strtod`
(an uncaught ValueError if it fails), then apply the unit suffix.
The `cm`/`mm` constants are the exact decimal literals of the source. -/
def singledimen (s : String) (width height : Option ℚ) : Except SpecErr ℚ :=
  match strtod s with
  | none => .error .valueError
  | some (num, rest) =>
    if strHasPrefix rest "pt" then .ok num
    else if strHasPrefix rest "in" then .ok (num * 72)
    else if strHasPrefix rest "cm" then .ok (num * (28346456692913385211 / 10 ^ 18 : ℚ))
    else if strHasPrefix rest "mm" then .ok (num * (28346456692913385211 / 10 ^ 19 : ℚ))
    else if strHasPrefix rest "w" then
      match width with
      | none => .error (.dieMsg "paper size not set")
      | some w => .ok (num * w)
    else if strHasPrefix rest "h" then
      match height with
      | none => .error (.dieMsg "paper size not set")
      | some h => .ok (num * h)
    else if rest ≠ "" then .error (.dieMsg "bad dimension")
    else .ok num

/-! ## parserange (psutils/pstops.py) -/

inductive RangeErr where
  | die (msg : String)
  | typeError
deriving Repr, DecidableEq

/-- Parse `_?\d+` (one optional underscore, then digits), returning the
matched text and the rest; `none` when the group cannot match here. -/
def underNum : List Char → Option (List Char × List Char)
  | '_' :: r =>
    let ds := r.takeWhile Char.isDigit
    if ds = [] then none else some ('_' :: ds, r.dropWhile Char.isDigit)
  | l =>
    let ds := l.takeWhile Char.isDigit
    if ds = [] then none else some (ds, l.dropWhile Char.isDigit)

/-- The groups of `(_?\d+)?(?:(-)(_?\d+))?$` over one range segment. -/
def rangeGroups (seg : String) : Option (Option String × Bool × Option String) :=
  let l := seg.data
  let (g1, l1) : Option String × List Char :=
    match underNum l with
    | some (txt, rest) => (some ⟨txt⟩, rest)
    | none => (none, l)
  match l1 with
  | [] => some (g1, false, none)
  | '-' :: r =>
    match underNum r with
    | some (txt, rest) => if rest = [] then some (g1, true, some ⟨txt⟩) else none
    | none => none
  | _ => none

/-- `re.sub("^_", "-", s)`. -/
def underscoreToMinus (s : String) : String :=
  match s.data with
  | '_' :: r => ⟨'-' :: r⟩
  | _ => s

/-- One segment of `parserange`: `_` is the blank sentinel `(0, 0)`;
otherwise the regex groups drive `start`/`end` (an empty segment reaches
`re.sub(..., None)`, a TypeError crash in the source). -/
def parseRangeSeg (seg : String) : Except RangeErr Range :=
  if seg = "_" then .ok ⟨0, 0, seg⟩
  else
    match rangeGroups seg with
    | none => .error (.die ("not a page range: " ++ seg))
    | some (g1, dash, g3) =>
      let startTxt := g1.getD "1"
      let endOpt : Option String := if dash then some (g3.getD "-1") else g1
      match endOpt with
      | none => .error .typeError
      | some endTxt =>
        match pyInt (underscoreToMinus startTxt), pyInt (underscoreToMinus endTxt) with
        | some a, some b => .ok ⟨a, b, seg⟩
        | _, _ => .error .typeError

def parserange (ranges_text : String) : Except RangeErr (List Range) :=
  mapE parseRangeSeg (splitOnChar ',' ranges_text)

/-! ## parsespecs (psutils/pstops.py) -/

/-- `[LRUHV]` with IGNORECASE. -/
def isModChar (c : Char) : Bool :=
  c = 'L' || c = 'R' || c = 'U' || c = 'H' || c = 'V' ||
  c = 'l' || c = 'r' || c = 'u' || c = 'h' || c = 'v'

/-- `[\d.a-z]` with IGNORECASE and ASCII. -/
def isOffChar (c : Char) : Bool :=
  c.isDigit || c = '.' || (('a' ≤ c) && (c ≤ 'z')) || (('A' ≤ c) && (c ≤ 'Z'))

/-- The capture groups of the placement regex
`(-)?(\d+)([LRUHV]+)?(?:@([^()]+))?(?:\((-?[\d.a-z]+),(-?[\d.a-z]+)\))?$`. -/
structure PlacementGroups where
  neg : Bool
  digits : String
  mods : String
  scaleTxt : Option String
  xoffTxt : Option String
  yoffTxt : Option String
deriving Repr, DecidableEq

/-- One offset token `-?[\d.a-z]+`, returning (matched text, rest). -/
def offToken (l : List Char) : Option (List Char × List Char) :=
  let (pre, r) : List Char × List Char :=
    match l with
    | '-' :: r => (['-'], r)
    | _ => ([], l)
  let ds := r.takeWhile isOffChar
  if ds = [] then none else some (pre ++ ds, r.dropWhile isOffChar)

/-- The optional offsets group `(?:\((-?[\d.a-z]+),(-?[\d.a-z]+)\))?` followed
by `$`: either the input is exhausted, or a fully-formed parenthesized pair
ends it (anything else fails the whole regex, because `$` cannot match). -/
def offsetsTail : List Char → Option (Option String × Option String)
  | [] => some (none, none)
  | '(' :: r =>
    match offToken r with
    | none => none
    | some (x, r1) =>
      match r1 with
      | ',' :: r2 =>
        match offToken r2 with
        | none => none
        | some (y, r3) =>
          match r3 with
          | ')' :: r4 => if r4 = [] then some (some ⟨x⟩, some ⟨y⟩) else none
          | _ => none
      | _ => none
  | _ => none

/-- The optional `(?:@([^()]+))?` group and everything after it. -/
def scaleOffsetsTail : List Char → Option (Option String × Option String × Option String)
  | '@' :: r =>
    let sc := r.takeWhile (fun c => c ≠ '(' && c ≠ ')')
    if sc = [] then none
    else
      match offsetsTail (r.dropWhile (fun c => c ≠ '(' && c ≠ ')')) with
      | none => none
      | some (x, y) => some (some ⟨sc⟩, x, y)
  | l =>
    match offsetsTail l with
    | none => none
    | some (x, y) => some (none, x, y)

/-- Match the placement regex against one placement text (`re.match` with
`$`), returning the groups; `none` means `specerror()` in the source. -/
def placementGroups (t : String) : Option PlacementGroups :=
  let l := t.data
  let (neg, l1) : Bool × List Char :=
    match l with
    | '-' :: r => (true, r)
    | _ => (false, l)
  let ds := l1.takeWhile Char.isDigit
  if ds = [] then none
  else
    let l2 := l1.dropWhile Char.isDigit
    let ms := l2.takeWhile isModChar
    let l3 := l2.dropWhile isModChar
    match scaleOffsetsTail l3 with
    | none => none
    | some (sc, x, y) => some ⟨neg, ⟨ds⟩, ⟨ms⟩, sc, x, y⟩

/-- The group-driven field assignments of `parsespecs` that precede the
`spec.pageno >= modulo` check: `reversed`, `pageno = int(m[2])`,
`scale = float(m[4])`, `xoff`/`yoff` via `singledimen`. -/
def scaleStage (g : PlacementGroups) (sp : PageSpec) : Except SpecErr PageSpec :=
  match g.scaleTxt with
  | none => .ok sp
  | some st =>
    match pyFloat st with
    | none => .error .valueError
    | some v => .ok { sp with scale := v }

def xoffStage (g : PlacementGroups) (width height : Option ℚ) (sp : PageSpec) :
    Except SpecErr PageSpec :=
  match g.xoffTxt with
  | none => .ok sp
  | some xt =>
    match singledimen xt width height with
    | .error e => .error e
    | .ok v => .ok { sp with xoff := v }

def yoffStage (g : PlacementGroups) (width height : Option ℚ) (sp : PageSpec) :
    Except SpecErr PageSpec :=
  match g.yoffTxt with
  | none => .ok sp
  | some yt =>
    match singledimen yt width height with
    | .error e => .error e
    | .ok v => .ok { sp with yoff := v }

def specFromGroups (g : PlacementGroups) (width height : Option ℚ) :
    Except SpecErr PageSpec :=
  match scaleStage g { reversed := g.neg, pageno := (digitsToNat g.digits.data : Int) } with
  | .error e => .error e
  | .ok sp1 =>
    match xoffStage g width height sp1 with
    | .error e => .error e
    | .ok sp2 => yoffStage g width height sp2

/-- One modifier letter: `angle = {"l": 90, "r": -90, "u": 180}`, rotations
add, flips toggle. -/
def applyMod (sp : PageSpec) (c : Char) : PageSpec :=
  if c = 'L' || c = 'l' then { sp with rotate := sp.rotate + 90 }
  else if c = 'R' || c = 'r' then { sp with rotate := sp.rotate + -90 }
  else if c = 'U' || c = 'u' then { sp with rotate := sp.rotate + 180 }
  else if c = 'H' || c = 'h' then { sp with hflip := !sp.hflip }
  else if c = 'V' || c = 'v' then { sp with vflip := !sp.vflip }
  else sp

def applyMods (sp : PageSpec) (mods : String) : PageSpec :=
  mods.data.foldl applyMod sp

/-- `# Normalize rotation and flips`: a simultaneous H+V collapses to a
half-turn, then the angle is reduced `% 360`. -/
def normalizeSpec (sp : PageSpec) : PageSpec :=
  if sp.hflip && sp.vflip then
    { sp with hflip := false, vflip := false, rotate := (sp.rotate + 180) % 360 }
  else { sp with rotate := sp.rotate % 360 }

/-- One placement of `parsespecs`: regex match, field assignment, the
`pageno >= modulo` bound check, modifier letters, normalization —
in source order. -/
def parse_placement (t : String) (width height : Option ℚ) (modulo : Int) :
    Except SpecErr PageSpec :=
  match placementGroups t with
  | none => .error .grammar
  | some g =>
    match specFromGroups g width height with
    | .error e => .error e
    | .ok sp =>
      if sp.pageno ≥ modulo then .error .grammar
      else .ok (normalizeSpec (applyMods sp g.mods))

/-- The negative lookahead of `re.split(r",(?![^()]*\))", ...)`: true when a
`)` appears after the comma before any `(`. -/
def lookaheadClose (l : List Char) : Bool :=
  match l.dropWhile (fun c => c ≠ '(' && c ≠ ')') with
  | ')' :: _ => true
  | _ => false

def splitCommasAux : List Char → List Char → List String
  | [], cur => [⟨cur.reverse⟩]
  | c :: rest, cur =>
    if c = ',' && !lookaheadClose rest then ⟨cur.reverse⟩ :: splitCommasAux rest []
    else splitCommasAux rest (c :: cur)

/-- `# Split on commas but not inside parentheses.` -/
def splitPagesText (s : String) : List String := splitCommasAux s.data []

/-- The modulo-prefix regex `(?:([^:]+):)?(.*)`: a nonempty prefix up to the
first colon, if any. -/
def moduloSplitAux : List Char → Option (List Char × List Char)
  | [] => none
  | c :: rest =>
    if c = ':' then some ([], rest)
    else
      match moduloSplitAux rest with
      | some (pre, post) => some (c :: pre, post)
      | none => none

def moduloSplit (s : String) : Option String × String :=
  match moduloSplitAux s.data with
  | some (pre, post) => if pre = [] then (none, s) else (some ⟨pre⟩, ⟨post⟩)
  | none => (none, s)

/-- `parsespecs(s, width, height)`: modulo prefix (`int(m[1] or "1")` — an
uncaught ValueError when the prefix is not an integer), comma/plus
splitting, per-placement parsing, and the accumulated `flipping` flag. -/
def moduloStage (modTxt : Option String) : Except SpecErr Int :=
  match modTxt with
  | none => .ok 1
  | some t =>
    match pyInt t with
    | none => .error .valueError
    | some v => .ok v

def parsespecs (s : String) (width height : Option ℚ) :
    Except SpecErr (List (List PageSpec) × Int × Bool) :=
  match moduloStage (moduloSplit s).1 with
  | .error e => .error e
  | .ok modulo =>
    match mapE (fun page => mapE (fun t => parse_placement t width height modulo)
        (splitOnChar '+' page)) (splitPagesText (moduloSplit s).2) with
    | .error e => .error e
    | .ok pages =>
      .ok (pages, modulo, pages.any (fun pg => pg.any (fun sp => sp.hflip || sp.vflip)))

/-! ## Document scanner (PsDocumentTransform.__init__, psutils/__init__.py) -/

/-- `comment_keyword`: `re.match(b'%%(\\S+)', line)` — the maximal nonempty
run of non-whitespace after a `%%` prefix. -/
def comment_keyword (line : String) : Option String :=
  match line.data with
  | '%' :: '%' :: rest =>
    let kw := rest.takeWhile (fun c => !pyIsSpace c)
    if kw = [] then none else some ⟨kw⟩
  | _ => none

/-- The scanner loop state of `PsDocumentTransform.__init__`.  `record` is
the byte offset of the current line, `stopped` models `break`.  Note
`beginprocset`/`endprocset` are `int`s initialized to `0` in the source
(`self.beginprocset: int = 0`), so the source tests `is not None` /
`is None` on them are constant. -/
structure ScanState where
  nesting : Int
  headerpos : Nat
  pagescmt : Nat
  endsetup : Nat
  beginprocset : Nat
  endprocset : Nat
  sizeheaders : List Nat
  pageptr : List Nat
  record : Nat
  stopped : Bool
deriving Repr, DecidableEq

def initScanState : ScanState :=
  { nesting := 0, headerpos := 0, pagescmt := 0, endsetup := 0,
    beginprocset := 0, endprocset := 0, sizeheaders := [], pageptr := [],
    record := 0, stopped := false }

def sizeKeywords : List String :=
  ["BoundingBox:", "HiResBoundingBox:", "DocumentPaperSizes:", "DocumentMedia:"]

/-- One iteration of the scanner loop, on one line (which includes its
trailing newline; `width_set` is `width is not None`).  The branch order and
guards mirror the source `elif` chain exactly; on `break`
(`Trailer`/`EOF`) the final `record = next_record` is not executed.
The `EndProcSet` branch of the source
(`elif self.beginprocset is not None and self.endprocset is None and ...`)
has a constantly-false condition — both fields are ints, never `None` —
so it is embedded as the dead branch it is. -/
def scanDispatch (width_set : Bool) (st : ScanState) (line : String) : ScanState :=
  if strHasPrefix line "%%" then
    match comment_keyword line with
    | none => st
    | some keyword =>
          if st.nesting = 0 ∧ keyword = "Page:" then
            { st with pageptr := st.pageptr ++ [st.record] }
          else if st.headerpos = 0 ∧ width_set = true ∧ keyword ∈ sizeKeywords then
            { st with sizeheaders := st.sizeheaders ++ [st.record] }
          else if st.headerpos = 0 ∧ keyword = "Pages:" then
            { st with pagescmt := st.record }
          else if st.headerpos = 0 ∧ keyword = "EndComments" then
            { st with headerpos := st.record + line.length }
          else if keyword ∈ ["BeginDocument:", "BeginBinary:", "BeginFile:"] then
            { st with nesting := st.nesting + 1 }
          else if keyword ∈ ["EndDocument", "EndBinary", "EndFile"] then
            { st with nesting := st.nesting - 1 }
          else if st.nesting = 0 ∧ keyword = "EndSetup" then
            { st with endsetup := st.record }
          else if st.nesting = 0 ∧ keyword = "BeginProlog" then
            { st with headerpos := st.record + line.length }
          else if st.nesting = 0 ∧ line = "%%BeginProcSet: PStoPS" then
            { st with beginprocset := st.record }
          else if False then
            { st with endprocset := st.record + line.length }
          else if st.nesting = 0 ∧ (keyword = "Trailer" ∨ keyword = "EOF") then
            { st with stopped := true }
          else st
  else if st.headerpos = 0 then
    { st with headerpos := st.record }
  else st

def scanStep (width_set : Bool) (st : ScanState) (line : String) : ScanState :=
  if st.stopped then st
  else if (scanDispatch width_set st line).stopped then scanDispatch width_set st line
  else { scanDispatch width_set st line with record := st.record + line.length }

/-- The whole scanner loop over the input split into lines. -/
def scan (width_set : Bool) (lines : List String) : ScanState :=
  lines.foldl (scanStep width_set) initScanState

/-- The post-loop finalization: `num_pages = len(pageptr)`, append the final
position as sentinel, clamp `endsetup` to the first page record. -/
structure ScanResult where
  num_pages : Nat
  pageptr : List Nat
  headerpos : Nat
  pagescmt : Nat
  endsetup : Nat
  beginprocset : Nat
  endprocset : Nat
  sizeheaders : List Nat
deriving Repr, DecidableEq

def scanFinalize (st : ScanState) : ScanResult :=
  let pageptr := st.pageptr ++ [st.record]
  let first := pageptr.headD 0
  let endsetup := if st.endsetup = 0 ∨ st.endsetup > first then first else st.endsetup
  { num_pages := st.pageptr.length, pageptr := pageptr, headerpos := st.headerpos,
    pagescmt := st.pagescmt, endsetup := endsetup,
    beginprocset := st.beginprocset, endprocset := st.endprocset,
    sizeheaders := st.sizeheaders }

/-! ## write_header / write_page (PsDocumentTransform) -/

/-- The page-count emitted by `write_header`:
`f'%%Pages: {int(maxpage / modulo) * pagesperspec} 0'`.  `int()` truncates
the exact quotient toward zero, which for non-negative operands is floor
division. -/
def write_header_pages_value (maxpage modulo pagesperspec : Nat) : Nat :=
  maxpage / modulo * pagesperspec

/-- The guard of the procset-skipping copy in `write_header`:
`if self.endprocset and self.use_procset:`. -/
def write_header_skips_procset (endprocset : Nat) (use_procset : Bool) : Bool :=
  (endprocset != 0) && use_procset

/-- `self.use_procset = self.global_transform or any(len(page) > 1 or
page[0].has_transform() for page in specs)`. -/
def use_procset_calc (global_transform : Bool) (specs : List (List PageSpec)) : Bool :=
  global_transform ||
    specs.any (fun page => decide (page.length > 1) || (page.headD default).has_transform)

/-- What `write_page` emits as the body of one placement: the guarded
verbatim copy of a source page, or a bare `showpage` (a blank page). -/
inductive BodyAction where
  | copy (p : Int)
  | blank
deriving Repr, DecidableEq

/-- The body decision of `write_page` for one placement:
`if page_number < page_list.num_pages() and 0 <= real_page < self.pages():`
copy the page body, `else: self.write('showpage')`. -/
def write_page_body (pages : List Int) (total_doc_pages : Nat) (ps : PageSpec)
    (maxpage modulo pagebase : Int) : BodyAction :=
  if page_index_to_page_number ps maxpage modulo pagebase < (num_pages pages : Int) ∧
     0 ≤ real_page pages (page_index_to_page_number ps maxpage modulo pagebase) ∧
     real_page pages (page_index_to_page_number ps maxpage modulo pagebase) <
       (total_doc_pages : Int)
  then .copy (real_page pages (page_index_to_page_number ps maxpage modulo pagebase))
  else .blank

/-! ## transform_pages (psutils/pstops.py) -/

/-- `maxpage = page_list.num_pages() + (modulo - page_list.num_pages() %
modulo) % modulo`. -/
def maxpage_calc (np modulo : Nat) : Nat :=
  np + (modulo - np % modulo) % modulo

/-- The output-page counting of the `while pagebase < maxpage` loop:
each iteration emits one output page per spec in the cycle
(`outputpage += 1` for each `page in doc.specs`). -/
def transformLoop (modulo specs_len maxpage : Nat) : Nat → Nat → Nat → Nat
  | 0, _, out => out
  | fuel+1, pagebase, out =>
    if pagebase < maxpage then
      transformLoop modulo specs_len maxpage fuel (pagebase + modulo) (out + specs_len)
    else out

def transform_output_count (maxpage modulo specs_len : Nat) : Nat :=
  transformLoop modulo specs_len maxpage maxpage 0 0

/-! ## psnup grid-layout optimizer (psutils/psnup.py) -/

/-- The search loop of `nextdiv(n, m)`: `while n < m: n += 1; if m % n == 0:
return n, m // n`, with fuel `m - n` (one unit per increment of `n`). -/
def nextdivAux (m : Nat) : Nat → Nat → Nat × Nat
  | 0, _ => (0, 0)
  | fuel+1, n =>
    if n < m then
      if m % (n+1) = 0 then (n+1, m / (n+1))
      else nextdivAux m fuel (n+1)
    else (0, 0)

/-- `nextdiv`: next exact divisor of `m` greater than `n` (with the
dividend), or `(0, 0)`. -/
def nextdiv (n m : Nat) : Nat × Nat := nextdivAux m (m - n) n

/-- The `(hor, ver)` pairs visited by `hor, ver = 1, args.nup; while hor !=
0: ...; hor, ver = nextdiv(hor, args.nup)`.  Fuel `m + 1` suffices because
`hor` strictly increases until it becomes `0`. -/
def divisorPairsAux (m : Nat) : Nat → Nat → Nat → List (Nat × Nat)
  | 0, _, _ => []
  | fuel+1, hor, ver =>
    if hor = 0 then []
    else
      (hor, ver) :: divisorPairsAux m fuel (nextdiv hor m).1 (nextdiv hor m).2

def divisorPairs (m : Nat) : List (Nat × Nat) := divisorPairsAux m (m+1) 1 m

/-- The waste evaluated by `reduce_waste(hor, ver, iwid, ihgt, rot)`:
`scl = min(pphgt / (ihgt * ver), ppwid / (iwid * hor))`,
`waste = (ppwid - scl * iwid * hor) ** 2 + (pphgt - scl * ihgt * ver) ** 2`. -/
def psnup_waste (ppwid pphgt : ℚ) (hor ver : Nat) (iwid ihgt : ℚ) : ℚ :=
  let scl := min (pphgt / (ihgt * (ver : ℚ))) (ppwid / (iwid * (hor : ℚ)))
  (ppwid - scl * iwid * (hor : ℚ)) ^ 2 + (pphgt - scl * ihgt * (ver : ℚ)) ^ 2

/-- `reduce_waste`: keep the layout if its waste is strictly below the best
so far.  The `Option` layout models the Python locals `horiz`/`vert`/
`rotate` being unassigned until the first update. -/
def reduce_waste (ppwid pphgt : ℚ) (st : ℚ × Option (Nat × Nat × Bool))
    (hor ver : Nat) (iwid ihgt : ℚ) (rot : Bool) : ℚ × Option (Nat × Nat × Bool) :=
  if psnup_waste ppwid pphgt hor ver iwid ihgt < st.1
  then (psnup_waste ppwid pphgt hor ver iwid ihgt, some (hor, ver, rot))
  else st

/-- One loop iteration: `reduce_waste(hor, ver, ..., 0)` for the normal
orientation, then `reduce_waste(ver, hor, ..., 1)` for the rotated one. -/
def psnupStep (ppwid pphgt iw ih : ℚ) (st : ℚ × Option (Nat × Nat × Bool))
    (hv : Nat × Nat) : ℚ × Option (Nat × Nat × Bool) :=
  reduce_waste ppwid pphgt
    (reduce_waste ppwid pphgt st hv.1 hv.2 iw ih false) hv.2 hv.1 ih iw true

/-- The whole search: `best = args.tolerance`, then for each divisor pair
evaluate the normal and the rotated orientation. -/
def psnupSearch (tol ppwid pphgt iw ih : ℚ) (nup : Nat) :
    ℚ × Option (Nat × Nat × Bool) :=
  (divisorPairs nup).foldl (psnupStep ppwid pphgt iw ih) (tol, none)

/-- `if best == args.tolerance: die(...)`. -/
def psnupAborts (tol ppwid pphgt iw ih : ℚ) (nup : Nat) : Bool :=
  decide ((psnupSearch tol ppwid pphgt iw ih nup).1 = tol)

/-- Decidable equality on `Except`, for evaluating the embedding on
concrete inputs. -/
instance {ε α : Type} [DecidableEq ε] [DecidableEq α] : DecidableEq (Except ε α) := fun a b =>
  match a, b with
  | .error e, .error f =>
    if h : e = f then .isTrue (by simp [h]) else .isFalse (by simp [h])
  | .ok x, .ok y =>
    if h : x = y then .isTrue (by simp [h]) else .isFalse (by simp [h])
  | .error _, .ok _ => .isFalse (by simp)
  | .ok _, .error _ => .isFalse (by simp)

/-! # Theorems about the claims -/

/-- C1: the claim says `real_page` returns the blank sentinel (an
out-of-range value such as -1) for every out-of-range index, so the caller
treats the page as blank.  The code instead returns `0` — a valid page
index — when the subscript raises IndexError, and for a negative index
within `-len..-1` Python indexing returns a real trailing element; the
page-label path therefore labels an out-of-range (blank) position `"1"`
instead of `"*"`. -/
theorem c1_real_page_out_of_range_is_zero :
    real_page [0] 1 = 0 ∧
    page_label_entry (real_page [0] 1) = "1" ∧
    page_label_entry (-1) = "*" ∧
    ¬ real_page [0] 1 < 0 ∧
    real_page [3] (-1) = 3 := by
  refine ⟨rfl, ?_, rfl, by decide, rfl⟩
  rfl

/-- C2 counterexample: with `odd = true, even = false`, resolving the blank
range `_` (sentinel `(0,0)`; its page number 0 counts as even) appends
nothing at all, not one blank sentinel. -/
theorem c2_blank_dropped_by_odd_filter :
    mkPageList 10 [⟨0, 0, "_"⟩] false true false = .ok [] ∧
    (Except.ok [] : Except String (List Int)) ≠ .ok [-1] := by
  exact ⟨by decide, by decide⟩

/-- C2 (amended): `parseRanges("_")` yields the single blank-sentinel range,
and resolving it never triggers the bounds error for any document length
and flag combination; it appends exactly one blank sentinel `-1` unless
odd-only filtering is in effect, in which case it appends nothing. -/
theorem c2_blank_range_never_bounds_error :
    parserange "_" = .ok [⟨0, 0, "_"⟩] ∧
    ∀ (T : ℕ) (reverse odd even : Bool),
      mkPageList (T : Int) [⟨0, 0, "_"⟩] reverse odd even =
        .ok (if odd && !even then [] else [-1]) := by
  refine ⟨by decide, ?_⟩
  intro T rev odd even
  have hT : ¬ ((0 : Int) > (T : Int)) := by omega
  cases odd <;> cases even <;> cases rev <;>
    simp [mkPageList, mkPages, rangeStepLoop, keepPage, hT, Except.map]

/-- C3 counterexample: for `maxpage = 3, modulo = 2` and one spec per cycle
the header rewrite emits `int(3/2) * 1 = 1`, not
`ceil(3/2) * 1 = (3+2-1)/2 * 1 = 2`. -/
theorem c3_pages_count_not_ceiling :
    write_header_pages_value 3 2 1 = 1 ∧ (3 + 2 - 1) / 2 * 1 = 2 ∧ (1 : ℕ) ≠ 2 := by
  exact ⟨rfl, rfl, by decide⟩

/-- C3 (amended): the emitted page count is `floor(maxpage/modulo) *
specsPerCycle`; it equals `ceil(maxpage/modulo) * specsPerCycle` exactly
when `modulo` divides `maxpage` (which the imposition driver guarantees by
rounding `maxpage` up to a multiple of `modulo`). -/
theorem c3_pages_count_floor_eq_ceil_when_dvd (maxpage modulo L : ℕ)
    (h1 : 1 ≤ modulo) (h2 : modulo ∣ maxpage) :
    write_header_pages_value maxpage modulo L = (maxpage + modulo - 1) / modulo * L := by
  obtain ⟨k, rfl⟩ := h2
  unfold write_header_pages_value
  congr 1
  rw [Nat.mul_div_cancel_left _ (by omega)]
  have ha : k * modulo ≤ modulo * k + modulo - 1 := by
    have h3 : k * modulo = modulo * k := by ring
    omega
  have hb : modulo * k + modulo - 1 < (k + 1) * modulo := by
    have h3 : (k + 1) * modulo = modulo * k + modulo := by ring
    omega
  exact (Nat.div_eq_of_lt_le ha hb).symm

/-- C5: the scanner never records a pre-existing PStoPS procset block, so
the header rewrite never skips one.  On a document that contains the very
block emitted by this program (`%%BeginProcSet: PStoPS 1 15` …
`%%EndProcSet`), `beginprocset`/`endprocset` stay 0: the begin test
compares the whole line (which carries the version tag and newline)
against the bare string `%%BeginProcSet: PStoPS`, and the end branch
requires `self.endprocset is None`, which is false for the int 0.
Hence `if self.endprocset and self.use_procset` can never skip, and the
old block is copied and duplicated instead of replaced. -/
theorem c5_preexisting_procset_never_skipped :
    (scan true ["%!PS-Adobe-3.0\n", "%%Pages: 1\n", "%%EndComments\n",
      "%%BeginProcSet: PStoPS 1 15\n", "x\n", "%%EndProcSet\n",
      "%%Page: 1 1\n", "body\n", "%%Trailer\n"]).beginprocset = 0 ∧
    (scan true ["%!PS-Adobe-3.0\n", "%%Pages: 1\n", "%%EndComments\n",
      "%%BeginProcSet: PStoPS 1 15\n", "x\n", "%%EndProcSet\n",
      "%%Page: 1 1\n", "body\n", "%%Trailer\n"]).endprocset = 0 ∧
    ∀ use_procset : Bool,
      write_header_skips_procset
        (scan true ["%!PS-Adobe-3.0\n", "%%Pages: 1\n", "%%EndComments\n",
          "%%BeginProcSet: PStoPS 1 15\n", "x\n", "%%EndProcSet\n",
          "%%Page: 1 1\n", "body\n", "%%Trailer\n"]).endprocset use_procset = false := by
  refine ⟨by decide, by decide, ?_⟩
  intro u
  cases u <;> decide

/-- C7 counterexample: a malformed (non-integer) modulo prefix does not
fail with the usage GrammarError — `int(m[1])` raises an uncaught
ValueError, i.e. a crash. -/
theorem c7_bad_modulo_prefix_crashes :
    parsespecs "x:0" none none = .error .valueError ∧
    SpecErr.valueError ≠ SpecErr.grammar := by
  exact ⟨by decide, by decide⟩

/-- C7 (amended): placement texts that fail the grammar do produce the
fixed usage GrammarError (e.g. `foo`, and any text the placement regex
rejects), but a non-integer modulo prefix, a non-numeric scale, and an
unparsable offset number raise an uncaught ValueError (a crash), and an
offset with an unknown unit suffix dies with a distinct `bad dimension`
message. -/
theorem c7_grammar_error_vs_crash :
    parsespecs "foo" none none = .error .grammar ∧
    parsespecs "0@z" none none = .error .valueError ∧
    parsespecs "0(q,0)" none none = .error .valueError ∧
    parsespecs "0(1q,0)" none none = .error (.dieMsg "bad dimension") ∧
    ∀ (t : String) (w h : Option ℚ) (m : Int),
      placementGroups t = none → parse_placement t w h m = .error .grammar := by
  refine ⟨by decide, by decide, by decide, by decide, ?_⟩
  intro t w h m hg
  simp [parse_placement, hg]

/-- Witness for the hypothesis of `c7_grammar_error_vs_crash`: a concrete
text rejected by the placement grammar yields the GrammarError. -/
theorem c7_grammar_error_vs_crash_witness :
    parse_placement "zz" none none 7 = .error .grammar :=
  c7_grammar_error_vs_crash.2.2.2.2 "zz" none none 7 (by decide)

/-- C9: for a 10-page document, range 1-10 with odd selection yields
`[0, 2, 4, 6, 8]`; adding `reverse` yields `[8, 6, 4, 2, 0]`; and in
general the reversal is applied once to the whole resulting list after all
ranges are processed, not per range. -/
theorem c9_odd_selection_and_reverse :
    mkPageList 10 [⟨1, 10, "1-10"⟩] false true false = .ok [0, 2, 4, 6, 8] ∧
    mkPageList 10 [⟨1, 10, "1-10"⟩] true true false = .ok [8, 6, 4, 2, 0] ∧
    ∀ (T : Int) (rs : List Range) (odd even : Bool),
      mkPageList T rs true odd even = (mkPageList T rs false odd even).map List.reverse := by
  refine ⟨by decide, by decide, ?_⟩
  intro T rs odd even
  unfold mkPageList
  cases mkPages T odd even rs <;> simp [Except.map]

/-- Helper for C4: the per-line dispatch of the scanner, in a nested state:
the guarded branches do nothing, the unguarded ones touch only
`headerpos`/`pagescmt`/`sizeheaders`, and only while the header boundary
is unset. -/
theorem scanDispatch_nested (w : Bool) (st : ScanState) (line : String)
    (h : 0 < st.nesting) :
    (scanDispatch w st line).pageptr = st.pageptr ∧
    (scanDispatch w st line).endsetup = st.endsetup ∧
    (scanDispatch w st line).beginprocset = st.beginprocset ∧
    (scanDispatch w st line).endprocset = st.endprocset ∧
    (scanDispatch w st line).stopped = st.stopped ∧
    (st.headerpos ≠ 0 →
      (scanDispatch w st line).headerpos = st.headerpos ∧
      (scanDispatch w st line).pagescmt = st.pagescmt ∧
      (scanDispatch w st line).sizeheaders = st.sizeheaders) := by
  have hkeep : ∀ u : ScanState, u = st →
      u.pageptr = st.pageptr ∧ u.endsetup = st.endsetup ∧
      u.beginprocset = st.beginprocset ∧ u.endprocset = st.endprocset ∧
      u.stopped = st.stopped ∧
      (st.headerpos ≠ 0 → u.headerpos = st.headerpos ∧ u.pagescmt = st.pagescmt ∧
        u.sizeheaders = st.sizeheaders) := by
    rintro u rfl
    exact ⟨rfl, rfl, rfl, rfl, rfl, fun _ => ⟨rfl, rfl, rfl⟩⟩
  unfold scanDispatch
  by_cases hp : strHasPrefix line "%%" = true
  · rw [if_pos hp]
    cases hkw : comment_keyword line with
    | none => exact hkeep st rfl
    | some kw =>
      dsimp only
      by_cases h1 : st.nesting = 0 ∧ kw = "Page:"
      · exact absurd h1.1 (by omega)
      rw [if_neg h1]
      by_cases h2 : st.headerpos = 0 ∧ w = true ∧ kw ∈ sizeKeywords
      · rw [if_pos h2]
        exact ⟨rfl, rfl, rfl, rfl, rfl, fun hh => absurd h2.1 hh⟩
      rw [if_neg h2]
      by_cases h3 : st.headerpos = 0 ∧ kw = "Pages:"
      · rw [if_pos h3]
        exact ⟨rfl, rfl, rfl, rfl, rfl, fun hh => absurd h3.1 hh⟩
      rw [if_neg h3]
      by_cases h4 : st.headerpos = 0 ∧ kw = "EndComments"
      · rw [if_pos h4]
        exact ⟨rfl, rfl, rfl, rfl, rfl, fun hh => absurd h4.1 hh⟩
      rw [if_neg h4]
      by_cases h5 : kw ∈ ["BeginDocument:", "BeginBinary:", "BeginFile:"]
      · rw [if_pos h5]
        exact ⟨rfl, rfl, rfl, rfl, rfl, fun _ => ⟨rfl, rfl, rfl⟩⟩
      rw [if_neg h5]
      by_cases h6 : kw ∈ ["EndDocument", "EndBinary", "EndFile"]
      · rw [if_pos h6]
        exact ⟨rfl, rfl, rfl, rfl, rfl, fun _ => ⟨rfl, rfl, rfl⟩⟩
      rw [if_neg h6]
      by_cases h7 : st.nesting = 0 ∧ kw = "EndSetup"
      · exact absurd h7.1 (by omega)
      rw [if_neg h7]
      by_cases h8 : st.nesting = 0 ∧ kw = "BeginProlog"
      · exact absurd h8.1 (by omega)
      rw [if_neg h8]
      by_cases h9 : st.nesting = 0 ∧ line = "%%BeginProcSet: PStoPS"
      · exact absurd h9.1 (by omega)
      rw [if_neg h9]
      rw [if_neg not_false]
      by_cases h11 : st.nesting = 0 ∧ (kw = "Trailer" ∨ kw = "EOF")
      · exact absurd h11.1 (by omega)
      rw [if_neg h11]
      exact hkeep st rfl
  · rw [if_neg hp]
    by_cases hhp : st.headerpos = 0
    · rw [if_pos hhp]
      exact ⟨rfl, rfl, rfl, rfl, rfl, fun hh => absurd hhp hh⟩
    · rw [if_neg hhp]
      exact hkeep st rfl

/-- C4 counterexample: the paper-size / pages-count / end-of-comments
branches of the scanner carry no nesting guard.  After a first line
`%%BeginDocument: x` (nesting = 1, header boundary still unset), a nested
`%%Pages: 5` line is recorded: `pagescmt` becomes 19, the offset of a
marker that belongs to the embedded document. -/
theorem c4_pages_count_recorded_while_nested :
    (scanStep true initScanState "%%BeginDocument: x\n").nesting = 1 ∧
    (scanStep true initScanState "%%BeginDocument: x\n").pagescmt = 0 ∧
    (scanStep true (scanStep true initScanState "%%BeginDocument: x\n")
      "%%Pages: 5\n").pagescmt = 19 := by
  exact ⟨by decide, by decide, by decide⟩

/-- C4 (amended): while the nesting counter is positive, the scanner does
ignore page-record boundaries, end-setup, the procset-begin marker and the
trailer (and `endprocset` is never written at all); but the paper-size
exclusion offsets, the pages-count offset, and the end-of-comments /
first-content header boundary carry no nesting guard — they are only
protected once the header boundary is already set. -/
theorem c4_nested_markers_partially_ignored (w : Bool) (st : ScanState) (line : String)
    (h : 0 < st.nesting) :
    (scanStep w st line).pageptr = st.pageptr ∧
    (scanStep w st line).endsetup = st.endsetup ∧
    (scanStep w st line).beginprocset = st.beginprocset ∧
    (scanStep w st line).endprocset = st.endprocset ∧
    (scanStep w st line).stopped = st.stopped ∧
    (st.headerpos ≠ 0 →
      (scanStep w st line).headerpos = st.headerpos ∧
      (scanStep w st line).pagescmt = st.pagescmt ∧
      (scanStep w st line).sizeheaders = st.sizeheaders) := by
  have hd := scanDispatch_nested w st line h
  obtain ⟨d1, d2, d3, d4, d5, d6⟩ := hd
  unfold scanStep
  by_cases hstop : st.stopped = true
  · rw [if_pos hstop]
    exact ⟨rfl, rfl, rfl, rfl, rfl, fun _ => ⟨rfl, rfl, rfl⟩⟩
  · rw [if_neg hstop]
    by_cases hs1 : (scanDispatch w st line).stopped = true
    · rw [if_pos hs1]
      exact ⟨d1, d2, d3, d4, d5, d6⟩
    · rw [if_neg hs1]
      exact ⟨d1, d2, d3, d4, d5, fun hh =>
        ⟨(d6 hh).1, (d6 hh).2.1, (d6 hh).2.2⟩⟩

/-- Witness for the hypothesis of `c4_nested_markers_partially_ignored`:
a `%%Page:` marker seen in a nested state leaves the page-pointer index
untouched. -/
theorem c4_nested_markers_partially_ignored_witness :
    (scanStep true ⟨1, 5, 0, 0, 0, 0, [], [], 0, false⟩ "%%Page: 1 1\n").pageptr = [] := by
  have hthm := c4_nested_markers_partially_ignored true
    ⟨1, 5, 0, 0, 0, 0, [], [], 0, false⟩ "%%Page: 1 1\n" (by decide)
  exact hthm.1

/-! ### Helper lemmas for the parsespecs invariants (C6) -/

theorem mapE_ok_mem {ε α β : Type} {f : α → Except ε β} {l : List α} {ys : List β}
    (hok : mapE f l = .ok ys) : ∀ y ∈ ys, ∃ x ∈ l, f x = .ok y := by
  induction l generalizing ys with
  | nil =>
    unfold mapE at hok
    injection hok with h
    subst h
    intro y hy
    cases hy
  | cons x xs ih =>
    unfold mapE at hok
    split at hok
    · cases hok
    · rename_i y hy
      split at hok
      · cases hok
      · rename_i ys2 hys2
        injection hok with h
        subst h
        intro z hz
        rcases List.mem_cons.mp hz with hz1 | hz2
        · exact ⟨x, List.mem_cons_self x xs, hz1 ▸ hy⟩
        · obtain ⟨x2, hx2, hfx2⟩ := ih hys2 z hz2
          exact ⟨x2, List.mem_cons_of_mem x hx2, hfx2⟩

theorem applyMod_pageno (sp : PageSpec) (c : Char) : (applyMod sp c).pageno = sp.pageno := by
  unfold applyMod
  split_ifs <;> rfl

theorem foldl_applyMod_pageno (l : List Char) (sp : PageSpec) :
    (l.foldl applyMod sp).pageno = sp.pageno := by
  induction l generalizing sp with
  | nil => rfl
  | cons c cs ih => rw [List.foldl_cons, ih, applyMod_pageno]

theorem applyMods_pageno (sp : PageSpec) (mods : String) :
    (applyMods sp mods).pageno = sp.pageno :=
  foldl_applyMod_pageno mods.data sp

theorem normalizeSpec_pageno (sp : PageSpec) : (normalizeSpec sp).pageno = sp.pageno := by
  unfold normalizeSpec
  split_ifs <;> rfl

theorem normalizeSpec_rotate_bounds (sp : PageSpec) :
    0 ≤ (normalizeSpec sp).rotate ∧ (normalizeSpec sp).rotate < 360 := by
  unfold normalizeSpec
  split_ifs <;>
    exact ⟨Int.emod_nonneg _ (by norm_num), Int.emod_lt_of_pos _ (by norm_num)⟩

theorem normalizeSpec_not_both_flips (sp : PageSpec) :
    ¬((normalizeSpec sp).hflip = true ∧ (normalizeSpec sp).vflip = true) := by
  unfold normalizeSpec
  split_ifs with hb
  · simp
  · intro hh
    have h1 : sp.hflip = true := hh.1
    have h2 : sp.vflip = true := hh.2
    refine hb ?_
    rw [h1, h2]
    rfl

theorem scaleStage_pageno {g : PlacementGroups} {sp sp2 : PageSpec}
    (hok : scaleStage g sp = .ok sp2) : sp2.pageno = sp.pageno := by
  unfold scaleStage at hok
  split at hok
  · injection hok with h
    subst h
    rfl
  · split at hok
    · cases hok
    · injection hok with h
      subst h
      rfl

theorem xoffStage_pageno {g : PlacementGroups} {w h : Option ℚ} {sp sp2 : PageSpec}
    (hok : xoffStage g w h sp = .ok sp2) : sp2.pageno = sp.pageno := by
  unfold xoffStage at hok
  split at hok
  · injection hok with heq
    subst heq
    rfl
  · split at hok
    · cases hok
    · injection hok with heq
      subst heq
      rfl

theorem yoffStage_pageno {g : PlacementGroups} {w h : Option ℚ} {sp sp2 : PageSpec}
    (hok : yoffStage g w h sp = .ok sp2) : sp2.pageno = sp.pageno := by
  unfold yoffStage at hok
  split at hok
  · injection hok with heq
    subst heq
    rfl
  · split at hok
    · cases hok
    · injection hok with heq
      subst heq
      rfl

/-- A successful `specFromGroups` carries `pageno = int(m[2])`, which is a
digit string, hence non-negative. -/
theorem specFromGroups_ok_pageno {g : PlacementGroups} {w h : Option ℚ} {sp : PageSpec}
    (hok : specFromGroups g w h = .ok sp) :
    sp.pageno = (digitsToNat g.digits.data : Int) := by
  unfold specFromGroups at hok
  split at hok
  · cases hok
  · rename_i sp1 h1
    split at hok
    · cases hok
    · rename_i sp2 h2
      rw [yoffStage_pageno hok, xoffStage_pageno h2, scaleStage_pageno h1]

/-- A placement accepted by `parse_placement` satisfies the PageSpec
invariants. -/
theorem parse_placement_ok_invariants {t : String} {w h : Option ℚ} {modulo : Int}
    {sp : PageSpec} (hok : parse_placement t w h modulo = .ok sp) :
    0 ≤ sp.pageno ∧ sp.pageno < modulo ∧ 0 ≤ sp.rotate ∧ sp.rotate < 360 ∧
    ¬(sp.hflip = true ∧ sp.vflip = true) := by
  unfold parse_placement at hok
  split at hok
  · cases hok
  · rename_i g hg
    split at hok
    · cases hok
    · rename_i sp0 hsp0
      split at hok
      · cases hok
      · rename_i hlt
        injection hok with heq
        subst heq
        have hp0 := specFromGroups_ok_pageno hsp0
        have hpn : (normalizeSpec (applyMods sp0 g.mods)).pageno = sp0.pageno := by
          rw [normalizeSpec_pageno, applyMods_pageno]
        refine ⟨?_, ?_, (normalizeSpec_rotate_bounds _).1,
          (normalizeSpec_rotate_bounds _).2, normalizeSpec_not_both_flips _⟩
        · rw [hpn, hp0]
          exact Int.natCast_nonneg _
        · rw [hpn]
          omega

/-- C6: every PageSpec produced by a successful `parsespecs` satisfies
`0 ≤ pageNumber < modulo`, `rotateDegrees ∈ [0, 360)`, and `hFlip`/`vFlip`
never both set; and a placement whose (grammar-matched, stage-resolved)
page number reaches the bound check with `pageNumber ≥ modulo` fails with
the GrammarError. -/
theorem c6_pagespec_invariants (s : String) (w h : Option ℚ)
    (pages : List (List PageSpec)) (modulo : Int) (flipping : Bool)
    (hok : parsespecs s w h = .ok (pages, modulo, flipping)) :
    (∀ page ∈ pages, ∀ sp ∈ page,
      0 ≤ sp.pageno ∧ sp.pageno < modulo ∧ 0 ≤ sp.rotate ∧ sp.rotate < 360 ∧
      ¬(sp.hflip = true ∧ sp.vflip = true)) ∧
    (∀ (t : String) (g : PlacementGroups) (sp0 : PageSpec),
      placementGroups t = some g → specFromGroups g w h = .ok sp0 →
      modulo ≤ sp0.pageno → parse_placement t w h modulo = .error .grammar) := by
  constructor
  · unfold parsespecs at hok
    split at hok
    · cases hok
    · rename_i m hm
      split at hok
      · cases hok
      · rename_i pgs hpgs
        injection hok with heq
        have hpgs_eq : pgs = pages := congrArg Prod.fst heq
        have hm_eq : m = modulo := congrArg (fun p => p.2.1) heq
        subst hpgs_eq
        subst hm_eq
        intro page hpage sp hsp
        obtain ⟨pgtext, hpgmem, hpg⟩ := mapE_ok_mem hpgs page hpage
        obtain ⟨t, htmem, ht⟩ := mapE_ok_mem hpg sp hsp
        exact parse_placement_ok_invariants ht
  · intro t g sp0 hg hsp0 hge
    unfold parse_placement
    rw [hg]
    dsimp only
    rw [hsp0]
    dsimp only
    rw [if_pos hge]

/-- Witness for the hypotheses of `c6_pagespec_invariants`: a placement
with page number 5 against modulo 1 fails with the GrammarError. -/
theorem c6_pagespec_invariants_witness :
    parse_placement "5" none none 1 = .error .grammar :=
  (c6_pagespec_invariants "0" none none [[{}]] 1 false (by decide)).2
    "5" ⟨false, "5", "", none, none, none⟩ { pageno := 5 } (by decide) (by decide) (by decide)

/-! ### Helper lemmas for the imposition driver (C10) -/

/-- The `while pagebase < maxpage` loop emits `specs_len` pages per cycle,
`k` cycles when the distance to `maxpage` is `m * k`. -/
theorem transformLoop_count (m L : ℕ) :
    ∀ (k fuel pagebase out : ℕ), 1 ≤ m → k ≤ fuel →
      transformLoop m L (pagebase + m * k) fuel pagebase out = out + k * L := by
  intro k
  induction k with
  | zero =>
    intro fuel pagebase out hm hk
    cases fuel with
    | zero => simp [transformLoop]
    | succ f =>
      unfold transformLoop
      rw [if_neg (by omega)]
      simp
  | succ k ih =>
    intro fuel pagebase out hm hk
    cases fuel with
    | zero => omega
    | succ f =>
      unfold transformLoop
      rw [if_pos (by
        have hpos : 0 < m * (k + 1) := Nat.mul_pos (by omega) (by omega)
        omega)]
      have harg : pagebase + m * (k + 1) = (pagebase + m) + m * k := by ring
      rw [harg]
      rw [ih f (pagebase + m) (out + L) hm (by omega)]
      ring

/-- C10: the driver rounds the resolved page count up to the next multiple
of `modulo` (`maxpage`), emits exactly `maxpage / modulo` whole cycles of
`specsPerCycle` output pages, and a placement whose page index falls at or
beyond the resolved page list is a blank output page, not an error. -/
theorem c10_whole_cycles (n m L : ℕ) (hm : 1 ≤ m) :
    (m ∣ maxpage_calc n m ∧ n ≤ maxpage_calc n m ∧ maxpage_calc n m < n + m) ∧
    transform_output_count (maxpage_calc n m) m L = maxpage_calc n m / m * L ∧
    (∀ (pages : List Int) (total : ℕ) (ps : PageSpec) (maxp mo pb : Int),
      (num_pages pages : Int) ≤ page_index_to_page_number ps maxp mo pb →
      write_page_body pages total ps maxp mo pb = .blank) := by
  have hdvd : m ∣ maxpage_calc n m := by
    rcases eq_or_ne (n % m) 0 with h0 | h0
    · have hmp : maxpage_calc n m = n := by
        unfold maxpage_calc
        rw [h0, Nat.sub_zero, Nat.mod_self, Nat.add_zero]
      rw [hmp]
      exact Nat.dvd_of_mod_eq_zero h0
    · have hrlt : n % m < m := Nat.mod_lt n (by omega)
      have hsub : (m - n % m) % m = m - n % m := Nat.mod_eq_of_lt (by omega)
      have hmp : maxpage_calc n m = n + (m - n % m) := by
        unfold maxpage_calc
        rw [hsub]
      rw [hmp]
      refine Nat.dvd_of_mod_eq_zero ?_
      rw [Nat.add_mod, hsub]
      have hsum : n % m + (m - n % m) = m := by omega
      rw [hsum, Nat.mod_self]
  refine ⟨⟨hdvd, ?_, ?_⟩, ?_, ?_⟩
  · unfold maxpage_calc
    exact Nat.le_add_right _ _
  · unfold maxpage_calc
    have : (m - n % m) % m < m := Nat.mod_lt _ (by omega)
    omega
  · obtain ⟨k, hk⟩ := hdvd
    unfold transform_output_count
    rw [hk, Nat.mul_div_cancel_left _ (by omega)]
    have hfuel : k ≤ m * k := by
      calc k = 1 * k := (Nat.one_mul k).symm
      _ ≤ m * k := Nat.mul_le_mul_right k hm
    have hcount := transformLoop_count m L k (m * k) 0 0 hm hfuel
    rw [Nat.zero_add] at hcount
    rw [hcount]
    omega
  · intro pages total ps maxp mo pb hle
    unfold write_page_body
    rw [if_neg (fun hc => absurd hc.1 (by omega))]

/-- Witness for the hypothesis of `c10_whole_cycles`: 3 resolved pages with
modulo 2 round up to 4, two cycles of 5 specs emit 10 pages, and an index
past the page list is a blank. -/
theorem c10_whole_cycles_witness :
    maxpage_calc 3 2 = 4 ∧ transform_output_count 4 2 5 = 10 ∧
    write_page_body [0, 1, 2] 3 default 4 2 4 = .blank := by
  have hthm := c10_whole_cycles 3 2 5 (by decide)
  refine ⟨rfl, ?_, ?_⟩
  · exact hthm.2.1
  · exact hthm.2.2 [0, 1, 2] 3 default 4 2 4 (by decide)

/-! ### Helper lemmas for the grid-layout optimizer (C8) -/

/-- `nextdiv` on `n ≥ m` yields the stop pair. -/
theorem nextdivAux_ge (m : ℕ) : ∀ (fuel n : ℕ), m ≤ n → nextdivAux m fuel n = (0, 0) := by
  intro fuel n h
  cases fuel with
  | zero => rfl
  | succ f =>
    unfold nextdivAux
    rw [if_neg (by omega)]

/-- `nextdiv` on `n < m` finds the least divisor of `m` above `n`. -/
theorem nextdivAux_lt (m : ℕ) : ∀ (fuel n : ℕ), m - n ≤ fuel → n < m →
    ∃ d, nextdivAux m fuel n = (d, m / d) ∧ n < d ∧ d ∣ m ∧ d ≤ m ∧
      ∀ k, n < k → k ∣ m → d ≤ k := by
  intro fuel
  induction fuel with
  | zero => intro n h1 h2; omega
  | succ f ih =>
    intro n h1 h2
    unfold nextdivAux
    rw [if_pos h2]
    by_cases hd : m % (n + 1) = 0
    · rw [if_pos hd]
      exact ⟨n + 1, rfl, by omega, Nat.dvd_of_mod_eq_zero hd, by omega,
        fun k hk _ => by omega⟩
    · rw [if_neg hd]
      by_cases hnm : n + 1 < m
      · obtain ⟨d, hd1, hd2, hd3, hd4, hd5⟩ := ih (n + 1) (by omega) hnm
        refine ⟨d, hd1, by omega, hd3, hd4, fun k hk hkd => ?_⟩
        rcases Nat.lt_or_ge (n + 1) k with hk2 | hk2
        · exact hd5 k hk2 hkd
        · exfalso
          have hkeq : k = n + 1 := by omega
          subst hkeq
          exact hd (Nat.dvd_iff_mod_eq_zero.mp hkd)
      · exfalso
        have heq : n + 1 = m := by omega
        rw [heq] at hd
        exact hd (Nat.mod_self m)

/-- Membership in the divisor-pair chain: exactly the pairs `(d, m / d)`
for divisors `d ≥ h` of `m`. -/
theorem divisorPairsAux_mem (m : ℕ) (hm : 1 ≤ m) :
    ∀ (fuel h : ℕ), h ∣ m → 1 ≤ h → m - h + 2 ≤ fuel →
      ∀ p : ℕ × ℕ, p ∈ divisorPairsAux m fuel h (m / h) ↔
        ∃ d, d ∣ m ∧ h ≤ d ∧ p = (d, m / d) := by
  intro fuel
  induction fuel with
  | zero => intro h hd hh hf; omega
  | succ f ih =>
    intro h hd hh hf p
    unfold divisorPairsAux
    rw [if_neg (by omega : ¬ h = 0)]
    by_cases hcase : h < m
    · obtain ⟨d, hnd, hlt, hdvd2, hle, hmin⟩ :=
        nextdivAux_lt m (m - h) h (le_refl _) hcase
      have hnd2 : nextdiv h m = (d, m / d) := hnd
      rw [hnd2]
      dsimp only
      rw [List.mem_cons, ih d hdvd2 (by omega) (by omega)]
      constructor
      · rintro (rfl | ⟨d2, h1, h2, rfl⟩)
        · exact ⟨h, hd, le_refl h, rfl⟩
        · exact ⟨d2, h1, by omega, rfl⟩
      · rintro ⟨d2, h1, h2, rfl⟩
        rcases eq_or_lt_of_le h2 with heq | hlt2
        · exact Or.inl (by rw [← heq])
        · exact Or.inr ⟨d2, h1, hmin d2 hlt2 h1, rfl⟩
    · have hhm : h = m := by
        have := Nat.le_of_dvd (by omega) hd
        omega
      have hnd0 : nextdiv h m = (0, 0) := nextdivAux_ge m (m - h) h (by omega)
      rw [hnd0]
      dsimp only
      have htail : divisorPairsAux m f 0 0 = [] := by
        cases f with
        | zero => rfl
        | succ f2 =>
          unfold divisorPairsAux
          rw [if_pos rfl]
      rw [htail]
      simp only [List.mem_singleton]
      constructor
      · rintro rfl
        exact ⟨h, hd, le_refl h, rfl⟩
      · rintro ⟨d2, h1, h2, rfl⟩
        have hle2 : d2 ≤ m := Nat.le_of_dvd (by omega) h1
        have hd2 : d2 = h := by omega
        rw [hd2]

/-- The chain enumerates exactly the factor pairs of `n`. -/
theorem divisorPairs_mem (n : ℕ) (hn : 1 ≤ n) (p : ℕ × ℕ) :
    p ∈ divisorPairs n ↔ p.1 * p.2 = n ∧ 1 ≤ p.1 := by
  unfold divisorPairs
  have hmem := divisorPairsAux_mem n hn (n + 1) 1 (one_dvd n) (le_refl 1) (by omega) p
  rw [Nat.div_one] at hmem
  rw [hmem]
  constructor
  · rintro ⟨d, hdvd, hle, rfl⟩
    exact ⟨Nat.mul_div_cancel' hdvd, by omega⟩
  · rintro ⟨hmul, hpos⟩
    have h2 : n / p.1 = p.2 := by
      rw [← hmul]
      exact Nat.mul_div_cancel_left _ (by omega)
    exact ⟨p.1, ⟨p.2, hmul.symm⟩, hpos, by rw [h2]⟩

theorem reduce_waste_fst_le (ppwid pphgt : ℚ) (st : ℚ × Option (Nat × Nat × Bool))
    (hor ver : Nat) (iwid ihgt : ℚ) (rot : Bool) :
    (reduce_waste ppwid pphgt st hor ver iwid ihgt rot).1 ≤ st.1 := by
  unfold reduce_waste
  split_ifs with hw
  · exact le_of_lt hw
  · exact le_refl _

theorem reduce_waste_fst_eq_iff (tol ppwid pphgt : ℚ) (st : ℚ × Option (Nat × Nat × Bool))
    (hor ver : Nat) (iwid ihgt : ℚ) (rot : Bool) (hle : st.1 ≤ tol) :
    ((reduce_waste ppwid pphgt st hor ver iwid ihgt rot).1 = tol ↔
      st.1 = tol ∧ ¬ psnup_waste ppwid pphgt hor ver iwid ihgt < tol) := by
  unfold reduce_waste
  split_ifs with hw
  · constructor
    · intro h1
      exact absurd h1 (ne_of_lt (lt_of_lt_of_le hw hle))
    · rintro ⟨h1, h2⟩
      exact absurd (lt_of_lt_of_le hw (le_of_eq h1)) h2
  · constructor
    · intro h1
      refine ⟨h1, fun hlt => hw ?_⟩
      rw [h1]
      exact hlt
    · rintro ⟨h1, -⟩
      exact h1

theorem foldl_psnupStep_eq_tol (tol ppwid pphgt iw ih : ℚ) :
    ∀ (l : List (ℕ × ℕ)) (st : ℚ × Option (ℕ × ℕ × Bool)), st.1 ≤ tol →
      ((l.foldl (psnupStep ppwid pphgt iw ih) st).1 = tol ↔
        st.1 = tol ∧ ∀ p ∈ l,
          ¬ psnup_waste ppwid pphgt p.1 p.2 iw ih < tol ∧
          ¬ psnup_waste ppwid pphgt p.2 p.1 ih iw < tol) := by
  intro l
  induction l with
  | nil =>
    intro st hle
    simp
  | cons q qs ihl =>
    intro st hle
    rw [List.foldl_cons]
    have hst1 : (reduce_waste ppwid pphgt st q.1 q.2 iw ih false).1 ≤ tol :=
      le_trans (reduce_waste_fst_le ppwid pphgt st q.1 q.2 iw ih false) hle
    have hst2 : (psnupStep ppwid pphgt iw ih st q).1 ≤ tol := by
      unfold psnupStep
      exact le_trans (reduce_waste_fst_le ppwid pphgt _ q.2 q.1 ih iw true) hst1
    rw [ihl _ hst2]
    have hq : (psnupStep ppwid pphgt iw ih st q).1 = tol ↔
        st.1 = tol ∧ ¬ psnup_waste ppwid pphgt q.1 q.2 iw ih < tol ∧
        ¬ psnup_waste ppwid pphgt q.2 q.1 ih iw < tol := by
      unfold psnupStep
      rw [reduce_waste_fst_eq_iff tol ppwid pphgt _ q.2 q.1 ih iw true hst1]
      rw [reduce_waste_fst_eq_iff tol ppwid pphgt st q.1 q.2 iw ih false hle]
      tauto
    rw [hq]
    constructor
    · rintro ⟨⟨h1, h2, h3⟩, h4⟩
      refine ⟨h1, fun p hp => ?_⟩
      rcases List.mem_cons.mp hp with rfl | hp2
      · exact ⟨h2, h3⟩
      · exact h4 p hp2
    · rintro ⟨h1, h2⟩
      exact ⟨⟨h1, (h2 q (List.mem_cons_self q qs)).1, (h2 q (List.mem_cons_self q qs)).2⟩,
        fun p hp => h2 p (List.mem_cons_of_mem q hp)⟩

/-- C8: the optimizer aborts (`best == tolerance`) iff no factor pair of
`N`, in either the upright or the rotated orientation, achieves waste
strictly below the tolerance, where the waste is the sum of squared
leftovers at the largest fitting uniform scale. -/
theorem c8_optimizer_abort_iff (tol ppwid pphgt iw ih : ℚ) (n : ℕ) (hn : 1 ≤ n) :
    psnupAborts tol ppwid pphgt iw ih n = true ↔
      ∀ h v : ℕ, h * v = n → 1 ≤ h →
        ¬ psnup_waste ppwid pphgt h v iw ih < tol ∧
        ¬ psnup_waste ppwid pphgt v h ih iw < tol := by
  unfold psnupAborts psnupSearch
  rw [decide_eq_true_eq]
  rw [foldl_psnupStep_eq_tol tol ppwid pphgt iw ih (divisorPairs n) (tol, none) (le_refl tol)]
  constructor
  · rintro ⟨-, hall⟩ h v hmul hpos
    exact hall (h, v) ((divisorPairs_mem n hn (h, v)).mpr ⟨hmul, hpos⟩)
  · intro hall
    refine ⟨rfl, fun p hp => ?_⟩
    obtain ⟨hmul, hpos⟩ := (divisorPairs_mem n hn p).mp hp
    exact hall p.1 p.2 hmul hpos

/-- Witness for the hypothesis of `c8_optimizer_abort_iff`: a unit page on
a unit sheet, one-up, has zero waste, so the search does not abort below
tolerance 1. -/
theorem c8_optimizer_abort_iff_witness :
    psnupAborts 1 1 1 1 1 1 = false := by
  have h := c8_optimizer_abort_iff 1 1 1 1 1 1 (by decide)
  cases hb : psnupAborts 1 1 1 1 1 1 with
  | false => rfl
  | true =>
    exfalso
    have h2 := (h.mp hb 1 1 (by decide) (by decide)).1
    refine h2 ?_
    norm_num [psnup_waste]

/-- Witness for the hypotheses of `c3_pages_count_floor_eq_ceil_when_dvd`:
at `maxpage = 4, modulo = 2` the emitted count equals the ceiling form. -/
theorem c3_pages_count_floor_eq_ceil_when_dvd_witness :
    write_header_pages_value 4 2 3 = (4 + 2 - 1) / 2 * 3 :=
  c3_pages_count_floor_eq_ceil_when_dvd 4 2 3 (by decide) (by decide)
